import Mathlib

/-!
Shallow embedding of the document variable-extraction and placeholder-filling
pipeline implemented in the single-file Flask application `app.py`.

Python strings are modelled as lists of characters (`PyStr`); `str.replace`
is modelled by a greedy left-to-right scanner with the same semantics as
CPython (leftmost, non-overlapping matches, including the empty-pattern
interleaving behaviour).  The external oracle (Gemini), the text extractors
and the filename sanitizer are side-effecting collaborators and enter the
model as explicit function parameters; everything the repository itself
computes is translated directly from the source.
-/

set_option maxRecDepth 8192

namespace Lexsy

/-- Python strings are modelled as lists of characters. -/
abbrev PyStr := List Char

/-- Boolean test that `pat` is a leading segment of `s`. -/
def isPrefixL : PyStr → PyStr → Bool
  | [], _ => true
  | _ :: _, [] => false
  | p :: ps, c :: cs => if p = c then isPrefixL ps cs else false

/-- Python substring test `pat in s`. -/
def chContains (pat : PyStr) : PyStr → Bool
  | [] => pat.isEmpty
  | c :: cs => isPrefixL pat (c :: cs) || chContains pat cs

/-- Worker for `replaceAll`: greedy left-to-right scan.  `skip` counts
characters still to be consumed by a match that already emitted its
replacement (this keeps the recursion structural on the string). -/
def replGo (pat rep : PyStr) : Nat → PyStr → PyStr
  | _, [] => []
  | Nat.succ k, _ :: cs => replGo pat rep k cs
  | 0, c :: cs =>
    if isPrefixL pat (c :: cs) then rep ++ replGo pat rep (pat.length - 1) cs
    else c :: replGo pat rep 0 cs

/-- Python `s.replace(pat, rep)`: replace all leftmost non-overlapping
occurrences.  An empty pattern interleaves `rep` between all characters,
as CPython does. -/
def replaceAll (pat rep s : PyStr) : PyStr :=
  match pat with
  | [] => rep ++ (s.map (fun c => c :: rep)).flatten
  | _ :: _ => replGo pat rep 0 s

/-- The bracketed placeholder form `f"[{key}]"` used in
`replace_variables_in_docx`. -/
def bracketed (k : PyStr) : PyStr := '[' :: (k ++ [']'])

/-- One `(key, value)` step of the substitution loop in
`replace_variables_in_docx` (app.py lines 117-123): first the bare name,
then the bracketed form, each guarded by a containment test on the
current paragraph text.  (The loop at lines 103-111 is a literal `pass`
and does nothing.) -/
def fillStep (t : PyStr) (kv : PyStr × PyStr) : PyStr :=
  let t1 := if chContains kv.1 t then replaceAll kv.1 kv.2 t else t
  if chContains (bracketed kv.1) t1 then replaceAll (bracketed kv.1) kv.2 t1 else t1

/-- Substitution applied to a single paragraph: the inner
`for key, value in answers.items()` loop. -/
def fillParagraph (answers : List (PyStr × PyStr)) (t : PyStr) : PyStr :=
  answers.foldl fillStep t

/-- `replace_variables_in_docx` restricted to what it does to paragraph
text: every paragraph is rewritten by `fillParagraph`. -/
def replace_variables_in_docx (answers : List (PyStr × PyStr))
    (paragraphs : List PyStr) : List PyStr :=
  paragraphs.map (fillParagraph answers)

/-- The unconditional sequential form of one substitution step (bare name
first, bracketed form second, both on the current text). -/
def fillStepSeq (t : PyStr) (kv : PyStr × PyStr) : PyStr :=
  replaceAll (bracketed kv.1) kv.2 (replaceAll kv.1 kv.2 t)

/-- The answers mapping `{"Date": "2024-01-01"}` from the substitution
property. -/
def dateAnswers : List (PyStr × PyStr) := [("Date".toList, "2024-01-01".toList)]

/-- `ALLOWED_EXTENSIONS = {'pdf', 'docx'}`. -/
def ALLOWED_EXTENSIONS : List PyStr := ["pdf".toList, "docx".toList]

/-- `filename.rsplit('.', 1)[1]`: the segment after the last dot. -/
def extAfterLastDot (name : PyStr) : PyStr :=
  (name.reverse.takeWhile (fun c => decide (c ≠ '.'))).reverse

/-- `allowed_file`: a dot is present and the lower-cased last extension is
an allowed one. -/
def allowed_file (filename : PyStr) : Bool :=
  decide ('.' ∈ filename) &&
    decide ((extAfterLastDot filename).map Char.toLower ∈ ALLOWED_EXTENSIONS)

/-- The pydantic `Variable` model. -/
structure Variable where
  name : PyStr
  description : PyStr
  deriving DecidableEq

/-- The fixed mock data returned by `identify_variables_with_gemini` when
no client is configured. -/
def mockVariables : List Variable :=
  [⟨"Client Name".toList, "The full name of the client".toList⟩,
   ⟨"Date".toList, "The date of the agreement".toList⟩,
   ⟨"Amount".toList, "The total amount in USD".toList⟩]

/-- Text of the prompt f-string before the interpolated document text. -/
def promptHeader : PyStr :=
  ("\n    Analyze the following legal document text and identify all the variable fields that need to be filled in by the user.\n    Ignore standard boilerplate text. Look for placeholders like [Name], \x7bDate\x7d, or contextually missing information.\n    \n    Document Text:\n    ").toList

/-- Text of the prompt f-string after the interpolated document text. -/
def promptTrailer : PyStr :=
  (" # Truncate to avoid token limits for this demo\n    ").toList

/-- The prompt built by `identify_variables_with_gemini`: the document text
is truncated to its first 10000 characters (`text[:10000]`). -/
def geminiPrompt (text : PyStr) : PyStr :=
  promptHeader ++ text.take 10000 ++ promptTrailer

/-- The request sent to the oracle: model name, prompt contents and the
structured-output configuration. -/
structure OracleRequest where
  model : PyStr
  contents : PyStr
  responseMimeType : PyStr
  deriving DecidableEq

/-- The full oracle request constructed by `identify_variables_with_gemini`. -/
def geminiRequest (text : PyStr) : OracleRequest :=
  ⟨"gemini-2.0-flash".toList, geminiPrompt text, "application/json".toList⟩

/-- `identify_variables_with_gemini`.  `clientPresent` models whether
`client` was initialized at process start; `oracle` models the external
call together with response parsing, with `Except.error` standing for any
raised exception.  The `try/except` returns `[]` on failure. -/
def identify_variables_with_gemini (clientPresent : Bool)
    (oracle : OracleRequest → Except PyStr (List Variable)) (text : PyStr) :
    List Variable :=
  if clientPresent then
    match oracle (geminiRequest text) with
    | Except.ok vs => vs
    | Except.error _ => []
  else mockVariables

/-- One entry of `user_sessions`: the keys ever written by the code are
`filename`, `filepath`, `answers` (at upload) and `text`, `variables`
(at analyze; the latter is called `varList` here because `variables` is a
reserved word in Lean). -/
structure SessionData where
  filename : PyStr
  filepath : PyStr
  text : Option PyStr
  varList : Option (List Variable)
  answers : List (PyStr × PyStr)
  deriving DecidableEq

/-- The in-memory `user_sessions` mapping, as an association list. -/
abbrev SessionStore := List (PyStr × SessionData)

/-- Dictionary lookup `user_sessions[session_id]`. -/
def storeLookup : SessionStore → PyStr → Option SessionData
  | [], _ => none
  | (k, v) :: rest, sid => if k = sid then some v else storeLookup rest sid

/-- Dictionary update of an existing key. -/
def storeUpdate (store : SessionStore) (sid : PyStr) (d : SessionData) :
    SessionStore :=
  store.map (fun kv => if kv.1 = sid then (kv.1, d) else kv)

/-- `UPLOAD_FOLDER = 'UPLOAD_FOLDER'`. -/
def UPLOAD_FOLDER : PyStr := "UPLOAD_FOLDER".toList

/-- Outcomes of the upload route. -/
inductive UploadResult where
  | errorNoFile
  | errorInvalidType
  | success (sessionId : PyStr)
  deriving DecidableEq

/-- `upload_file`:  `secure` models werkzeug's `secure_filename` (an
external sanitizer; it is the identity on plain ASCII names such as
`contract.docx`), `newSessionId` models `os.urandom(16).hex()`.  The save
path is `os.path.join(UPLOAD_FOLDER, filename)` and the new session is
created with empty answers. -/
def upload_file (secure : PyStr → PyStr) (store : SessionStore)
    (newSessionId : PyStr) (origName : PyStr) : UploadResult × SessionStore :=
  if origName.isEmpty then (UploadResult.errorNoFile, store)
  else if !(allowed_file origName) then (UploadResult.errorInvalidType, store)
  else
    let fname := secure origName
    let savePath := UPLOAD_FOLDER ++ ('/' :: fname)
    (UploadResult.success newSessionId,
      (newSessionId, ⟨fname, savePath, none, none, []⟩) :: store)

/-- Python `filepath.endswith(pat)`. -/
def isSuffixL (pat s : PyStr) : Bool := isPrefixL pat.reverse s.reverse

/-- Outcomes of the analyze route. -/
inductive AnalyzeResult where
  | invalidSession
  | serverError (msg : PyStr)
  | success (vars : List Variable)
  deriving DecidableEq

/-- `analyze_document`: dispatch on `filepath.endswith('.pdf')`, store the
extracted text and the identified variables in the session on success; on
an extraction exception return a 500 error and leave the store untouched.
`extractPdf` and `extractDocx` model the two extractors, with
`Except.error` standing for a raised exception. -/
def analyze_document (extractPdf extractDocx : PyStr → Except PyStr PyStr)
    (clientPresent : Bool) (oracle : OracleRequest → Except PyStr (List Variable))
    (store : SessionStore) (sid : PyStr) : AnalyzeResult × SessionStore :=
  if sid.isEmpty then (AnalyzeResult.invalidSession, store)
  else
    match storeLookup store sid with
    | none => (AnalyzeResult.invalidSession, store)
    | some sd =>
      match (if isSuffixL (".pdf".toList) sd.filepath then extractPdf sd.filepath
             else extractDocx sd.filepath) with
      | Except.error e => (AnalyzeResult.serverError e, store)
      | Except.ok text =>
        let vars := identify_variables_with_gemini clientPresent oracle text
        let sd2 : SessionData := { sd with text := some text, varList := some vars }
        (AnalyzeResult.success vars, storeUpdate store sid sd2)

/-- The output artifact written by the generate route: either the source
document with substitutions applied, or the synthesized summary document. -/
inductive ArtifactDoc where
  | filledDocx (paragraphs : List PyStr)
  | summaryDocx (heading : PyStr) (lines : List PyStr)
  deriving DecidableEq

/-- Outcomes of the generate route. -/
inductive GenResult where
  | invalidSession
  | success (downloadUrl : PyStr)
  deriving DecidableEq

/-- `os.path.splitext(name)[0]`: drop the extension after the last dot,
where leading dots of the name do not count as extension separators. -/
def splitextBase (name : PyStr) : PyStr :=
  let lead := name.takeWhile (fun c => decide (c = '.'))
  let rest := name.drop lead.length
  if decide ('.' ∈ rest) then
    lead ++ (rest.reverse.drop
      ((rest.reverse.takeWhile (fun c => decide (c ≠ '.'))).length + 1)).reverse
  else name

/-- `generate_document`: build the output name from the session's filename,
dispatch on `original_path.endswith('.docx')` to either in-place
substitution or the summary fallback, and answer with the download URL.
`readDocx` models reading the stored source document's paragraphs.  The
session store is returned as the code leaves it. -/
def generate_document (readDocx : PyStr → List PyStr) (store : SessionStore)
    (sid : PyStr) (answers : List (PyStr × PyStr)) :
    GenResult × SessionStore × Option ArtifactDoc :=
  if sid.isEmpty then (GenResult.invalidSession, store, none)
  else
    match storeLookup store sid with
    | none => (GenResult.invalidSession, store, none)
    | some sd =>
      let outputFilename := splitextBase sd.filename ++ "_filled.docx".toList
      let artifact :=
        if isSuffixL (".docx".toList) sd.filepath then
          ArtifactDoc.filledDocx (replace_variables_in_docx answers (readDocx sd.filepath))
        else
          ArtifactDoc.summaryDocx ("Filled Variables".toList)
            (answers.map (fun kv => kv.1 ++ (": ".toList) ++ kv.2))
      (GenResult.success ("/download/".toList ++ outputFilename), store, some artifact)

/-! ### Basic facts about the substitution primitives -/

/-- Python's `'' in s` is always true. -/
theorem chContains_nil_pat (s : PyStr) : chContains [] s = true := by
  cases s <;> rfl

/-- Replacing a pattern that does not occur is the identity. -/
theorem replaceAll_of_not_contains (pat rep : PyStr) :
    ∀ s, chContains pat s = false → replaceAll pat rep s = s := by
  cases pat with
  | nil =>
    intro s h
    rw [chContains_nil_pat] at h
    simp at h
  | cons p ps =>
    intro s
    induction s with
    | nil => intro _; rfl
    | cons c cs ih =>
      intro h
      simp only [chContains, Bool.or_eq_false_iff] at h
      show replGo (p :: ps) rep 0 (c :: cs) = c :: cs
      simp only [replGo, h.1, if_false]
      exact congrArg (c :: ·) (ih h.2)

/-- The containment guards in `fillStep` are redundant: each `(key, value)`
step is the unconditional bare-name replacement followed by the
bracketed-form replacement on the already-updated text. -/
theorem fillStep_eq_seq (t : PyStr) (kv : PyStr × PyStr) :
    fillStep t kv = fillStepSeq t kv := by
  simp only [fillStep, fillStepSeq]
  by_cases h1 : chContains kv.1 t = true
  · rw [if_pos h1]
    by_cases h2 : chContains (bracketed kv.1) (replaceAll kv.1 kv.2 t) = true
    · rw [if_pos h2]
    · have h2f : chContains (bracketed kv.1) (replaceAll kv.1 kv.2 t) = false := by
        simpa using h2
      rw [if_neg h2, replaceAll_of_not_contains _ _ _ h2f]
  · have h1f : chContains kv.1 t = false := by simpa using h1
    rw [if_neg h1, replaceAll_of_not_contains _ _ _ h1f]
    by_cases h2 : chContains (bracketed kv.1) t = true
    · rw [if_pos h2]
    · have h2f : chContains (bracketed kv.1) t = false := by simpa using h2
      rw [if_neg h2, replaceAll_of_not_contains _ _ _ h2f]

/-! ### Occurrence analysis for the greedy replacement scanner -/

/-- A prefix of a longer list is witnessed by its left part. -/
theorem isPrefixL_append_right : ∀ (a b s : PyStr),
    isPrefixL (a ++ b) s = true → isPrefixL a s = true := by
  intro a
  induction a with
  | nil => intro b s _; rfl
  | cons x xs ih =>
    intro b s h
    cases s with
    | nil => simp [isPrefixL] at h
    | cons c cs =>
      simp only [List.cons_append, isPrefixL] at h ⊢
      by_cases hx : x = c
      · rw [if_pos hx] at h ⊢
        exact ih b cs h
      · rw [if_neg hx] at h
        simp at h

/-- Peeling the left part of a concatenated prefix. -/
theorem isPrefixL_append_drop : ∀ (a b s : PyStr),
    isPrefixL (a ++ b) s = true → isPrefixL b (s.drop a.length) = true := by
  intro a
  induction a with
  | nil => intro b s h; simpa using h
  | cons x xs ih =>
    intro b s h
    cases s with
    | nil => simp [isPrefixL] at h
    | cons c cs =>
      simp only [List.cons_append, isPrefixL] at h
      by_cases hx : x = c
      · rw [if_pos hx] at h
        simpa [List.drop_succ_cons] using ih b cs h
      · rw [if_neg hx] at h
        simp at h

/-- A prefix is in particular contained. -/
theorem chContains_of_isPrefixL (pat s : PyStr) (h : isPrefixL pat s = true) :
    chContains pat s = true := by
  cases s with
  | nil =>
    cases pat with
    | nil => rfl
    | cons p ps => simp [isPrefixL] at h
  | cons c cs => simp [chContains, h]

/-- Containment in a dropped suffix lifts to the whole list. -/
theorem chContains_of_drop (pat : PyStr) : ∀ (s : PyStr) (n : Nat),
    chContains pat (s.drop n) = true → chContains pat s = true := by
  intro s
  induction s with
  | nil => intro n h; simpa using h
  | cons c cs ih =>
    intro n h
    cases n with
    | zero => simpa using h
    | succ n =>
      rw [List.drop_succ_cons] at h
      simp [chContains, ih n h]

/-- Containment of a compound pattern implies containment of its middle
part; in particular `[k] in s` implies `k in s`. -/
theorem chContains_of_mid : ∀ (s x pat y : PyStr),
    chContains (x ++ (pat ++ y)) s = true → chContains pat s = true := by
  intro s
  induction s with
  | nil =>
    intro x pat y h
    have hnil : x ++ (pat ++ y) = [] := by
      simpa [chContains, List.isEmpty_iff] using h
    have hpat : pat = [] := by
      rcases List.append_eq_nil.mp hnil with ⟨_, h2⟩
      rcases List.append_eq_nil.mp h2 with ⟨hp, _⟩
      exact hp
    subst hpat
    rfl
  | cons c cs ih =>
    intro x pat y h
    simp only [chContains, Bool.or_eq_true] at h
    cases h with
    | inl h =>
      have h1 := isPrefixL_append_drop x (pat ++ y) (c :: cs) h
      have h2 := isPrefixL_append_right pat y _ h1
      have h3 := chContains_of_isPrefixL pat _ h2
      exact chContains_of_drop pat (c :: cs) x.length h3
    | inr h =>
      simp [chContains, ih x pat y h]

/-- Every list is a prefix of itself extended on the right. -/
theorem isPrefixL_self_append : ∀ (a t : PyStr), isPrefixL a (a ++ t) = true := by
  intro a
  induction a with
  | nil => intro t; rfl
  | cons x xs ih => intro t; simp [List.cons_append, isPrefixL, ih]

/-- Every list is contained in itself extended on the right. -/
theorem chContains_self_append (a t : PyStr) : chContains a (a ++ t) = true :=
  chContains_of_isPrefixL a (a ++ t) (isPrefixL_self_append a t)

/-- A positive skip counter just drops the skipped characters. -/
theorem replGo_skip (pat rep : PyStr) : ∀ (s : PyStr) (k : Nat),
    replGo pat rep k s = replGo pat rep 0 (s.drop k) := by
  intro s
  induction s with
  | nil => intro k; simp [replGo]
  | cons c cs ih =>
    intro k
    cases k with
    | zero => rfl
    | succ k =>
      show replGo pat rep k cs = _
      rw [ih k, List.drop_succ_cons]

/-- Re-expressing the scanner's step on a cons cell without the skip
counter. -/
theorem replGo_cons (p : Char) (ps rep : PyStr) (c : Char) (cs : PyStr) :
    replGo (p :: ps) rep 0 (c :: cs) =
      if isPrefixL (p :: ps) (c :: cs) then
        rep ++ replGo (p :: ps) rep 0 (cs.drop ps.length)
      else c :: replGo (p :: ps) rep 0 cs := by
  show (if isPrefixL (p :: ps) (c :: cs) then
          rep ++ replGo (p :: ps) rep ((p :: ps).length - 1) cs
        else c :: replGo (p :: ps) rep 0 cs) = _
  rw [replGo_skip (p :: ps) rep cs ((p :: ps).length - 1)]
  have hl : (p :: ps).length - 1 = ps.length := by simp
  rw [hl]

/-- After a successful replacement the replacement text occurs in the
output. -/
theorem rep_in_replGo (p : Char) (ps rep : PyStr) : ∀ (n : Nat) (s : PyStr),
    s.length ≤ n → chContains (p :: ps) s = true →
    chContains rep (replGo (p :: ps) rep 0 s) = true := by
  intro n
  induction n with
  | zero =>
    intro s hlen hc
    have hs : s = [] := List.length_eq_zero.mp (Nat.le_zero.mp hlen)
    subst hs
    simp [chContains] at hc
  | succ n ih =>
    intro s hlen hc
    cases s with
    | nil => simp [chContains] at hc
    | cons c cs =>
      rw [replGo_cons]
      by_cases hp : isPrefixL (p :: ps) (c :: cs) = true
      · rw [if_pos hp]
        exact chContains_self_append rep _
      · rw [if_neg hp]
        have hc2 : chContains (p :: ps) cs = true := by
          simp only [chContains, Bool.or_eq_true] at hc
          cases hc with
          | inl h => exact absurd h hp
          | inr h => exact h
        have hlen2 : cs.length ≤ n := by simp at hlen; omega
        simp [chContains, ih cs hlen2 hc2]

/-- Wrapper of the previous lemma for `replaceAll`. -/
theorem rep_in_replaceAll (pat rep s : PyStr) (hp : pat ≠ [])
    (h : chContains pat s = true) :
    chContains rep (replaceAll pat rep s) = true := by
  cases pat with
  | nil => exact absurd rfl hp
  | cons p ps =>
    show chContains rep (replGo (p :: ps) rep 0 s) = true
    exact rep_in_replGo p ps rep s.length s le_rfl h

/-- A block of characters all different from the pattern's head can be
skipped when testing containment. -/
theorem chContains_append_block (p : Char) (ps : PyStr) : ∀ (blk t : PyStr),
    (∀ a ∈ blk, a ≠ p) →
    chContains (p :: ps) (blk ++ t) = chContains (p :: ps) t := by
  intro blk
  induction blk with
  | nil => intro t _; rfl
  | cons r rb ih =>
    intro t hb
    have hpr : p ≠ r := fun h => (hb r (by simp)) h.symm
    have hih := ih t (fun a ha => hb a (by simp [ha]))
    show (isPrefixL (p :: ps) ((r :: rb) ++ t) || chContains (p :: ps) (rb ++ t)) = _
    rw [hih]
    have hpf : isPrefixL (p :: ps) ((r :: rb) ++ t) = false := by
      show (if p = r then isPrefixL ps (rb ++ t) else false) = false
      rw [if_neg hpr]
    rw [hpf]
    simp

/-- Dropping one more element is taking the tail. -/
theorem dropSuccTail : ∀ (l : PyStr) (n : Nat), l.drop (n + 1) = (l.drop n).tail := by
  intro l
  induction l with
  | nil => intro n; simp
  | cons c cs ih =>
    intro n
    cases n with
    | zero => simp
    | succ n =>
      simp only [List.drop_succ_cons]
      exact ih n

/-- Membership in a dropped suffix lifts to the whole list. -/
theorem memOfMemDrop : ∀ (n : Nat) (l : PyStr) (a : Char), a ∈ l.drop n → a ∈ l := by
  intro n
  induction n with
  | zero => intro l a h; simpa using h
  | succ n ih =>
    intro l a h
    cases l with
    | nil => simp at h
    | cons c cs =>
      rw [List.drop_succ_cons] at h
      exact List.mem_cons_of_mem c (ih cs a h)

/-- If a proper suffix of the pattern is a prefix of the scanner's output,
it was already a prefix of the remaining input (the replacement text
cannot contribute, its characters being disjoint from the pattern's). -/
theorem prefix_recover (p : Char) (ps : PyStr) (r : Char) (rs : PyStr)
    (hd : ∀ a ∈ r :: rs, a ∉ p :: ps) : ∀ (n : Nat) (s : PyStr) (j : Nat),
    s.length ≤ n → 1 ≤ j →
    isPrefixL ((p :: ps).drop j) (replGo (p :: ps) (r :: rs) 0 s) = true →
    isPrefixL ((p :: ps).drop j) s = true := by
  intro n
  induction n with
  | zero =>
    intro s j hlen _ hpre
    have hs : s = [] := List.length_eq_zero.mp (Nat.le_zero.mp hlen)
    subst hs
    exact hpre
  | succ n ih =>
    intro s j hlen hj hpre
    cases s with
    | nil => exact hpre
    | cons c cs =>
      rw [replGo_cons] at hpre
      by_cases hj2 : (p :: ps).length ≤ j
      · rw [List.drop_eq_nil_of_le hj2]
        rfl
      · push_neg at hj2
        obtain ⟨d, rest, hdr⟩ : ∃ d rest, (p :: ps).drop j = d :: rest := by
          cases hh : (p :: ps).drop j with
          | nil =>
            exfalso
            have hlen3 : ((p :: ps).drop j).length = (p :: ps).length - j :=
              List.length_drop _ _
            rw [hh] at hlen3
            simp only [List.length_nil, List.length_cons] at hlen3
            simp only [List.length_cons] at hj2
            omega
          | cons d rest => exact ⟨d, rest, rfl⟩
        have hdmem : d ∈ (p :: ps) := memOfMemDrop j _ d (by rw [hdr]; simp)
        have hrest : rest = (p :: ps).drop (j + 1) := by
          have htl := dropSuccTail (p :: ps) j
          rw [hdr] at htl
          simpa using htl.symm
        by_cases hp : isPrefixL (p :: ps) (c :: cs) = true
        · rw [if_pos hp] at hpre
          rw [hdr] at hpre
          simp only [List.cons_append, isPrefixL] at hpre
          have hdnr : d ≠ r := fun hEq => (hd r (by simp)) (hEq ▸ hdmem)
          rw [if_neg hdnr] at hpre
          simp at hpre
        · rw [if_neg hp] at hpre
          rw [hdr] at hpre ⊢
          simp only [isPrefixL] at hpre ⊢
          by_cases hdc : d = c
          · rw [if_pos hdc] at hpre ⊢
            rw [hrest] at hpre ⊢
            have hlen2 : cs.length ≤ n := by simp at hlen; omega
            exact ih cs (j + 1) hlen2 (by omega) hpre
          · rw [if_neg hdc] at hpre
            simp at hpre

/-- When the replacement text shares no character with the (non-empty)
pattern, the pattern does not occur in the scanner's output: every full
match was consumed and no new occurrence can form across replacement
boundaries. -/
theorem no_pat_in_replGo (p : Char) (ps : PyStr) (r : Char) (rs : PyStr)
    (hd : ∀ a ∈ r :: rs, a ∉ p :: ps) : ∀ (n : Nat) (s : PyStr),
    s.length ≤ n →
    chContains (p :: ps) (replGo (p :: ps) (r :: rs) 0 s) = false := by
  intro n
  induction n with
  | zero =>
    intro s hlen
    have hs : s = [] := List.length_eq_zero.mp (Nat.le_zero.mp hlen)
    subst hs
    rfl
  | succ n ih =>
    intro s hlen
    cases s with
    | nil => rfl
    | cons c cs =>
      rw [replGo_cons]
      by_cases hp : isPrefixL (p :: ps) (c :: cs) = true
      · rw [if_pos hp]
        have hblock : ∀ a ∈ (r :: rs), a ≠ p :=
          fun a ha hEq => (hd a ha) (by simp [hEq])
        rw [chContains_append_block p ps (r :: rs) _ hblock]
        have hlen2 : (cs.drop ps.length).length ≤ n := by
          rw [List.length_drop]
          simp at hlen
          omega
        exact ih _ hlen2
      · rw [if_neg hp]
        have ihcs := ih cs (by simp at hlen; omega)
        simp only [chContains, Bool.or_eq_false_iff]
        refine ⟨?_, ihcs⟩
        by_cases hpc : p = c
        · subst hpc
          simp only [isPrefixL, if_pos rfl]
          cases hps : isPrefixL ps (replGo (p :: ps) (r :: rs) 0 cs) with
          | false => rfl
          | true =>
            have hps2 : isPrefixL ps cs = true :=
              prefix_recover p ps r rs hd n cs 1
                (by simp at hlen; omega) le_rfl hps
            have hcontra : isPrefixL (p :: ps) (p :: cs) = true := by
              simp [isPrefixL, hps2]
            exact absurd hcontra hp
        · simp [isPrefixL, hpc]

/-- Wrapper of the previous lemma for `replaceAll`. -/
theorem no_pat_in_replaceAll (pat rep s : PyStr) (hp : pat ≠ []) (hr : rep ≠ [])
    (hd : ∀ a ∈ rep, a ∉ pat) :
    chContains pat (replaceAll pat rep s) = false := by
  cases pat with
  | nil => exact absurd rfl hp
  | cons p ps =>
    cases rep with
    | nil => exact absurd rfl hr
    | cons r rs =>
      show chContains (p :: ps) (replGo (p :: ps) (r :: rs) 0 s) = false
      exact no_pat_in_replGo p ps r rs hd s.length s le_rfl

/-- Effect of `fillParagraph` with the `dateAnswers` mapping on a paragraph
containing the bracketed placeholder: the bare-name pass fires, the value
appears, and no occurrence of `[Date]` survives. -/
theorem fillParagraph_date (par : PyStr)
    (hb : chContains ("[Date]".toList) par = true) :
    chContains ("2024-01-01".toList) (fillParagraph dateAnswers par) = true ∧
    chContains ("[Date]".toList) (fillParagraph dateAnswers par) = false := by
  have hkey : chContains ("Date".toList) par = true :=
    chContains_of_mid par ['['] ("Date".toList) [']'] hb
  have hd : ∀ a ∈ "2024-01-01".toList, a ∉ "Date".toList := by decide
  have hp : ("Date".toList : PyStr) ≠ [] := by decide
  have hr : ("2024-01-01".toList : PyStr) ≠ [] := by decide
  have hno : chContains ("Date".toList)
      (replaceAll ("Date".toList) ("2024-01-01".toList) par) = false :=
    no_pat_in_replaceAll _ _ _ hp hr hd
  have hbrno : chContains (bracketed ("Date".toList))
      (replaceAll ("Date".toList) ("2024-01-01".toList) par) = false := by
    cases hcb : chContains (bracketed ("Date".toList))
        (replaceAll ("Date".toList) ("2024-01-01".toList) par) with
    | false => rfl
    | true =>
      have h5 := chContains_of_mid _ ['['] ("Date".toList) [']'] hcb
      rw [h5] at hno
      simp at hno
  have hrep : chContains ("2024-01-01".toList)
      (replaceAll ("Date".toList) ("2024-01-01".toList) par) = true :=
    rep_in_replaceAll _ _ _ hp hkey
  have hne : ¬ (chContains (bracketed ("Date".toList))
      (replaceAll ("Date".toList) ("2024-01-01".toList) par) = true) :=
    fun hcb => Bool.noConfusion (hbrno.symm.trans hcb)
  have hfill : fillParagraph dateAnswers par =
      replaceAll ("Date".toList) ("2024-01-01".toList) par := by
    show (if chContains (bracketed ("Date".toList))
            (if chContains ("Date".toList) par then
              replaceAll ("Date".toList) ("2024-01-01".toList) par else par) then
          replaceAll (bracketed ("Date".toList)) ("2024-01-01".toList)
            (if chContains ("Date".toList) par then
              replaceAll ("Date".toList) ("2024-01-01".toList) par else par)
        else
          (if chContains ("Date".toList) par then
            replaceAll ("Date".toList) ("2024-01-01".toList) par else par)) = _
    rw [if_pos hkey, if_neg hne]
  rw [hfill]
  exact ⟨hrep, hbrno⟩

/-! ### Claim C2 -/

/-- C2: for every document and every paragraph of it containing the literal
text `[Date]`, filling with the answers `{"Date": "2024-01-01"}` yields a
corresponding output paragraph that contains `2024-01-01` and no longer
contains `[Date]`. -/
theorem C2_substitution (paras : List PyStr) (i : Nat)
    (h1 : i < paras.length)
    (h2 : i < (replace_variables_in_docx dateAnswers paras).length)
    (hb : chContains ("[Date]".toList) (paras.get ⟨i, h1⟩) = true) :
    chContains ("2024-01-01".toList)
      ((replace_variables_in_docx dateAnswers paras).get ⟨i, h2⟩) = true ∧
    chContains ("[Date]".toList)
      ((replace_variables_in_docx dateAnswers paras).get ⟨i, h2⟩) = false := by
  have hmap : (replace_variables_in_docx dateAnswers paras).get ⟨i, h2⟩ =
      fillParagraph dateAnswers (paras.get ⟨i, h1⟩) := by
    simp [replace_variables_in_docx, List.get_eq_getElem, List.getElem_map]
  rw [hmap]
  exact fillParagraph_date _ hb

/-- Witness for C2 at a concrete one-paragraph document. -/
theorem C2_substitution_witness :
    chContains ("[Date]".toList)
      (["Due by [Date] at noon".toList].get ⟨0, by decide⟩) = true ∧
    (chContains ("2024-01-01".toList)
      ((replace_variables_in_docx dateAnswers
        ["Due by [Date] at noon".toList]).get ⟨0, by decide⟩) = true ∧
    chContains ("[Date]".toList)
      ((replace_variables_in_docx dateAnswers
        ["Due by [Date] at noon".toList]).get ⟨0, by decide⟩) = false) :=
  ⟨by decide,
    C2_substitution ["Due by [Date] at noon".toList] 0 (by decide) (by decide) (by decide)⟩

/-! ### Claim C1 -/

/-- C1 fails on the code: for the paragraph `"[Date]"` and the answer
`("Date", "X")`, the bracketed form appears in the original paragraph, yet
the code produces `"[X]"` — the bare-name pass rewrites the inside of the
brackets first, so the occurrence of `"[Date]"` is never replaced with the
value, whereas replacing the bracketed occurrences of the original (with
the bare-name pass also applied) would give `"X"`. -/
theorem C1_counterexample :
    chContains (bracketed ("Date".toList)) ("[Date]".toList) = true ∧
    fillParagraph [("Date".toList, "X".toList)] ("[Date]".toList) = "[X]".toList ∧
    replaceAll ("Date".toList) ("X".toList)
      (replaceAll (bracketed ("Date".toList)) ("X".toList) ("[Date]".toList)) = "X".toList ∧
    fillParagraph [("Date".toList, "X".toList)] ("[Date]".toList) ≠
      replaceAll ("Date".toList) ("X".toList)
        (replaceAll (bracketed ("Date".toList)) ("X".toList) ("[Date]".toList)) := by
  decide

/-- C1 (amended): in `fill` the two substitution passes per answer pair run
unconditionally but sequentially on the current paragraph text — the bare
name is replaced first and the bracketed form is then sought in the
already-updated text, so a bracketed occurrence in the original paragraph
is consumed by the bare-name pass (yielding `[value]`, not `value`). -/
theorem C1_sequential_passes (answers : List (PyStr × PyStr)) (p : PyStr) :
    fillParagraph answers p = answers.foldl fillStepSeq p := by
  unfold fillParagraph
  induction answers generalizing p with
  | nil => rfl
  | cons kv rest ih =>
    simp only [List.foldl_cons, fillStep_eq_seq]
    exact ih _

/-! ### Claim C3 -/

/-- C3 fails on the code: a successful generate request leaves the session
store untouched — the stored answers mapping stays empty (as initialized at
upload) instead of recording the supplied answers, and no output artifact
reference is written into the session. -/
theorem C3_counterexample :
    (generate_document (fun _ => [])
        [("s1".toList, SessionData.mk ("a.docx".toList) ("UPLOAD_FOLDER/a.docx".toList) none none [])]
        ("s1".toList) [("Date".toList, "X".toList)]).1 =
      GenResult.success ("/download/a_filled.docx".toList) ∧
    (generate_document (fun _ => [])
        [("s1".toList, SessionData.mk ("a.docx".toList) ("UPLOAD_FOLDER/a.docx".toList) none none [])]
        ("s1".toList) [("Date".toList, "X".toList)]).2.1 =
      [("s1".toList, SessionData.mk ("a.docx".toList) ("UPLOAD_FOLDER/a.docx".toList) none none [])] ∧
    (storeLookup (generate_document (fun _ => [])
        [("s1".toList, SessionData.mk ("a.docx".toList) ("UPLOAD_FOLDER/a.docx".toList) none none [])]
        ("s1".toList) [("Date".toList, "X".toList)]).2.1 ("s1".toList)).map SessionData.answers =
      some [] ∧
    some ([] : List (PyStr × PyStr)) ≠ some [("Date".toList, "X".toList)] := by
  decide

/-- C3 (amended): after a successful generate request on a valid session the
SessionStore is unchanged — the supplied answers are not recorded in the
session and no artifact reference is stored; the artifact reference (the
download URL) is only returned in the response. -/
theorem C3_store_unchanged (readDocx : PyStr → List PyStr) (store : SessionStore)
    (sid : PyStr) (answers : List (PyStr × PyStr)) (sd : SessionData)
    (h0 : sid.isEmpty = false) (h1 : storeLookup store sid = some sd) :
    (generate_document readDocx store sid answers).2.1 = store ∧
    (generate_document readDocx store sid answers).1 =
      GenResult.success ("/download/".toList ++ (splitextBase sd.filename ++ "_filled.docx".toList)) := by
  simp [generate_document, h0, h1]

/-- Witness for C3 (amended) at a concrete session. -/
theorem C3_store_unchanged_witness :
    ("s1".toList).isEmpty = false ∧
    storeLookup [("s1".toList, SessionData.mk ("a.docx".toList) ("UPLOAD_FOLDER/a.docx".toList) none none [])]
      ("s1".toList) = some (SessionData.mk ("a.docx".toList) ("UPLOAD_FOLDER/a.docx".toList) none none []) ∧
    ((generate_document (fun _ => [])
        [("s1".toList, SessionData.mk ("a.docx".toList) ("UPLOAD_FOLDER/a.docx".toList) none none [])]
        ("s1".toList) [("Date".toList, "X".toList)]).2.1 =
      [("s1".toList, SessionData.mk ("a.docx".toList) ("UPLOAD_FOLDER/a.docx".toList) none none [])] ∧
    (generate_document (fun _ => [])
        [("s1".toList, SessionData.mk ("a.docx".toList) ("UPLOAD_FOLDER/a.docx".toList) none none [])]
        ("s1".toList) [("Date".toList, "X".toList)]).1 =
      GenResult.success ("/download/".toList ++ (splitextBase ("a.docx".toList) ++ "_filled.docx".toList))) :=
  ⟨by decide, by decide,
    C3_store_unchanged (fun _ => [])
      [("s1".toList, SessionData.mk ("a.docx".toList) ("UPLOAD_FOLDER/a.docx".toList) none none [])]
      ("s1".toList) [("Date".toList, "X".toList)]
      (SessionData.mk ("a.docx".toList) ("UPLOAD_FOLDER/a.docx".toList) none none [])
      (by decide) (by decide)⟩

/-! ### Claim C4 -/

/-- C4 fails on the code: the stored path is `UPLOAD_FOLDER/<sanitized
name>` and does not depend on the session token, so two uploads of the same
file name under distinct session tokens store to the identical path (the
second upload clobbers the first session's file). -/
theorem C4_path_collision :
    (upload_file (fun n => n) [] ("aaaa".toList) ("contract.docx".toList)).1 =
      UploadResult.success ("aaaa".toList) ∧
    (upload_file (fun n => n) [] ("bbbb".toList) ("contract.docx".toList)).1 =
      UploadResult.success ("bbbb".toList) ∧
    ("aaaa".toList ≠ ("bbbb".toList : PyStr)) ∧
    (storeLookup (upload_file (fun n => n) [] ("aaaa".toList) ("contract.docx".toList)).2
        ("aaaa".toList)).map SessionData.filepath = some ("UPLOAD_FOLDER/contract.docx".toList) ∧
    (storeLookup (upload_file (fun n => n) [] ("bbbb".toList) ("contract.docx".toList)).2
        ("bbbb".toList)).map SessionData.filepath = some ("UPLOAD_FOLDER/contract.docx".toList) := by
  decide

/-! ### Claim C5 -/

/-- C5: the oracle request built by `identify_variables_with_gemini` depends
only on the first 10000 characters of the input text — any two texts that
agree on that prefix yield identical requests. -/
theorem C5_truncation (t1 t2 : PyStr) (h : t1.take 10000 = t2.take 10000) :
    geminiRequest t1 = geminiRequest t2 := by
  unfold geminiRequest geminiPrompt
  rw [h]

/-- Witness for C5 at two texts of length 10001 that differ in their last
character only. -/
theorem C5_truncation_witness :
    (List.replicate 10001 'a').take 10000 =
      (List.replicate 10000 'a' ++ ['b']).take 10000 ∧
    geminiRequest (List.replicate 10001 'a') =
      geminiRequest (List.replicate 10000 'a' ++ ['b']) := by
  have h1 : (List.replicate 10001 'a').take 10000 = List.replicate 10000 'a' := by
    rw [List.take_replicate, min_eq_left (by norm_num)]
  have h2 : (List.replicate 10000 'a' ++ ['b']).take 10000 = List.replicate 10000 'a' := by
    have h3 := List.take_left (List.replicate 10000 'a') ['b']
    rw [List.length_replicate] at h3
    exact h3
  exact ⟨h1.trans h2.symm, C5_truncation _ _ (h1.trans h2.symm)⟩

/-! ### Claim C6 -/

/-- C6: with no oracle client configured, `identify_variables_with_gemini`
returns the fixed three-element mock set for every input text, so repeated
calls with different texts return identical results. -/
theorem C6_fixed_fallback (oracle : OracleRequest → Except PyStr (List Variable))
    (t1 t2 : PyStr) :
    identify_variables_with_gemini false oracle t1 = mockVariables ∧
    identify_variables_with_gemini false oracle t1 =
      identify_variables_with_gemini false oracle t2 := by
  exact ⟨rfl, rfl⟩

/-! ### Claim C7 -/

/-- C7: whenever the external oracle call fails (any raised error),
`identify_variables_with_gemini` swallows the error and returns the empty
variable list. -/
theorem C7_oracle_degrade (oracle : OracleRequest → Except PyStr (List Variable))
    (text e : PyStr) (h : oracle (geminiRequest text) = Except.error e) :
    identify_variables_with_gemini true oracle text = [] := by
  simp [identify_variables_with_gemini, h]

/-- Witness for C7 with an oracle that always fails. -/
theorem C7_oracle_degrade_witness :
    ((fun _ : OracleRequest => (Except.error ("boom".toList) : Except PyStr (List Variable)))
        (geminiRequest ("hi".toList)) = Except.error ("boom".toList)) ∧
    identify_variables_with_gemini true
      (fun _ => Except.error ("boom".toList)) ("hi".toList) = [] :=
  ⟨rfl, C7_oracle_degrade (fun _ => Except.error ("boom".toList)) ("hi".toList)
    ("boom".toList) rfl⟩

/-! ### Claim C8 -/

/-- C8: filling with an empty answers mapping is the identity on every
paragraph of every document. -/
theorem C8_empty_answers (paragraphs : List PyStr) :
    replace_variables_in_docx [] paragraphs = paragraphs := by
  unfold replace_variables_in_docx
  induction paragraphs with
  | nil => rfl
  | cons p ps ih => rw [List.map_cons, ih]; rfl

/-! ### Claim C9 -/

/-- C9: if text extraction raises during analyze, the route returns the
surfaced error and the session store is left exactly as it was — neither
the text field nor the variables field is written. -/
theorem C9_extraction_aborts (extractPdf extractDocx : PyStr → Except PyStr PyStr)
    (clientPresent : Bool) (oracle : OracleRequest → Except PyStr (List Variable))
    (store : SessionStore) (sid : PyStr) (sd : SessionData) (e : PyStr)
    (h0 : sid.isEmpty = false) (h1 : storeLookup store sid = some sd)
    (h2 : (if isSuffixL (".pdf".toList) sd.filepath then extractPdf sd.filepath
           else extractDocx sd.filepath) = Except.error e) :
    analyze_document extractPdf extractDocx clientPresent oracle store sid =
      (AnalyzeResult.serverError e, store) := by
  simp at h2
  simp [analyze_document, h0, h1, h2]

/-- Witness for C9 with a corrupt docx source. -/
theorem C9_extraction_aborts_witness :
    ("s1".toList).isEmpty = false ∧
    storeLookup [("s1".toList, SessionData.mk ("a.docx".toList) ("UPLOAD_FOLDER/a.docx".toList) none none [])]
      ("s1".toList) = some (SessionData.mk ("a.docx".toList) ("UPLOAD_FOLDER/a.docx".toList) none none []) ∧
    ((if isSuffixL (".pdf".toList) (SessionData.mk ("a.docx".toList) ("UPLOAD_FOLDER/a.docx".toList) none none []).filepath
        then (fun _ => Except.ok ("ignored".toList)) (SessionData.mk ("a.docx".toList) ("UPLOAD_FOLDER/a.docx".toList) none none []).filepath
        else (fun _ => (Except.error ("corrupt".toList) : Except PyStr PyStr)) (SessionData.mk ("a.docx".toList) ("UPLOAD_FOLDER/a.docx".toList) none none []).filepath)
      = Except.error ("corrupt".toList)) ∧
    analyze_document (fun _ => Except.ok ("ignored".toList))
      (fun _ => Except.error ("corrupt".toList)) false (fun _ => Except.ok [])
      [("s1".toList, SessionData.mk ("a.docx".toList) ("UPLOAD_FOLDER/a.docx".toList) none none [])]
      ("s1".toList) =
      (AnalyzeResult.serverError ("corrupt".toList),
        [("s1".toList, SessionData.mk ("a.docx".toList) ("UPLOAD_FOLDER/a.docx".toList) none none [])]) :=
  ⟨by decide, by decide, rfl,
    C9_extraction_aborts (fun _ => Except.ok ("ignored".toList))
      (fun _ => Except.error ("corrupt".toList)) false (fun _ => Except.ok [])
      [("s1".toList, SessionData.mk ("a.docx".toList) ("UPLOAD_FOLDER/a.docx".toList) none none [])]
      ("s1".toList) (SessionData.mk ("a.docx".toList) ("UPLOAD_FOLDER/a.docx".toList) none none [])
      ("corrupt".toList) (by decide) (by decide) rfl⟩

/-! ### Claim C10 -/

/-- C10: the extension check at upload is case-insensitive while the
analyze/generate dispatch on the stored path is case-sensitive, so the
upper-case name `doc.DOCX` is accepted, analyze routes it to the
word-processor extractor (the stored text is the docx extractor's output),
and generate takes the non-word-processor fallback, producing the summary
artifact instead of in-place substitution. -/
theorem C10_case_mismatch :
    allowed_file ("doc.DOCX".toList) = true ∧
    (analyze_document (fun _ => Except.ok ("PDFTEXT".toList))
        (fun _ => Except.ok ("DOCXTEXT".toList)) false (fun _ => Except.ok [])
        (upload_file (fun n => n) [] ("s1".toList) ("doc.DOCX".toList)).2
        ("s1".toList)).1 = AnalyzeResult.success mockVariables ∧
    (storeLookup (analyze_document (fun _ => Except.ok ("PDFTEXT".toList))
        (fun _ => Except.ok ("DOCXTEXT".toList)) false (fun _ => Except.ok [])
        (upload_file (fun n => n) [] ("s1".toList) ("doc.DOCX".toList)).2
        ("s1".toList)).2 ("s1".toList)).map SessionData.text =
      some (some ("DOCXTEXT".toList)) ∧
    (generate_document (fun _ => [])
        (upload_file (fun n => n) [] ("s1".toList) ("doc.DOCX".toList)).2
        ("s1".toList) [("Amount".toList, "500".toList)]).2.2 =
      some (ArtifactDoc.summaryDocx ("Filled Variables".toList) ["Amount: 500".toList]) := by
  decide

end Lexsy
